import Mathlib

/-!
# Verification of the function-definition schema compiler

A shallow embedding of `edb/lang/schema/functions.py`: parameter
extraction (`parameters_from_ast`), overload-qualified name computation
(`FunctionCommandMixin._get_function_fullname`), the Create-function
command tree (`CreateFunction._cmd_tree_from_ast`), the schema-addition
checks (`CreateFunction._add_to_schema`), and the Delete target-name
computation (`DeleteFunction._classname_from_ast`).

External collaborators (the type-resolution utility `utils.ast_to_typeref`
and the code generator `codegen.generate_source`) are modelled as function
parameters; syntactic type nodes and expression nodes are type variables.
-/

namespace EdbFunctions

/-- A qualified schema name: module plus local name
(`sn.Name` in `name.py`, which is not part of the sources;
the spec describes it as "module + local name"). -/
structure Name where
  module : String
  name : String
deriving DecidableEq, Repr

/-- The resolved type references produced by the external type-resolution
collaborator. Per the spec's external-interface section, a `TypeRef` is one
of: forward-reference-by-name (`so.ObjectRef`, carrying `classname`),
container-type-with-element (`s_types.Collection`, carrying `schema_name`
and an element type), or a concrete type exposing a plain `name`. -/
inductive TypeRef where
  | objectRef (classname : String)
  | collection (schemaName : String) (elementType : TypeRef)
  | scalar (name : String)
deriving DecidableEq, Repr

/-- The duck-typed `.name` attribute read by the source on resolved types
(`pt.name`, `pt.element_type.name`). For an `ObjectRef` the name is its
`classname`; for a collection (whose class lives outside the sources) the
spec exposes only the container's own schema name, so that is its name. -/
def TypeRef.name : TypeRef → String
  | .objectRef c => c
  | .collection sn _ => sn
  | .scalar n => n

/-- The passing kinds of `qlast.ParameterKind`. -/
inductive ParameterKind where
  | positional
  | namedOnly
  | variadic
deriving DecidableEq, Repr

/-- The type modifiers of `qlast.TypeModifier` (SINGLETON / OPTIONAL / SET_OF). -/
inductive TypeModifier where
  | singleton
  | optional
  | setOf
deriving DecidableEq, Repr

/-- The implementation languages of `qlast.Language`. -/
inductive Language where
  | sql
  | edgeql
deriving DecidableEq, Repr

/-- The error kinds raised by this slice of the compiler. The source
raises `ql_errors.EdgeQLError` with distinct messages; the spec names the
kinds, which we keep as distinct constructors. -/
inductive SchemaError where
  | polymorphicDefaultError
  | duplicateSignatureError
  | invalidParameterKindError
deriving DecidableEq, Repr

/-- One syntactic function argument (an element of `astnode.args`):
name, syntactic type (`σ`, resolved externally), type modifier, passing
kind, and optional default expression (`ε`, rendered externally). -/
structure FuncArg (σ ε : Type) where
  name : String
  type : σ
  typemod : TypeModifier
  kind : ParameterKind
  default : Option ε
deriving DecidableEq, Repr

/-- The `ParametersInfo` named tuple: the transient extraction result (five parallel
sequences plus the variadic index). -/
structure ParametersInfo where
  paramnames : List String
  paramdefaults : List (Option String)
  paramtypes : List TypeRef
  paramtypemods : List TypeModifier
  paramkinds : List ParameterKind
  variadic : Option Nat
deriving DecidableEq, Repr

/-- The loop body of `parameters_from_ast`, one iteration per argument:
append name, typemod, kind, rendered default and resolved type to the
accumulated sequences; overwrite the variadic index whenever the kind is
VARIADIC; abort with `InvalidParameterKindError` when the kind is
NAMED_ONLY and `allow_named` is false. -/
def parametersFromAstGo {σ ε : Type} (resolve : σ → TypeRef) (gen : ε → String)
    (allowNamed : Bool) : Nat → List (FuncArg σ ε) → ParametersInfo →
    Except SchemaError ParametersInfo
  | _, [], acc => .ok acc
  | argi, arg :: rest, acc =>
    let acc : ParametersInfo :=
      { acc with
        paramnames := acc.paramnames ++ [arg.name]
        paramtypemods := acc.paramtypemods ++ [arg.typemod]
        paramkinds := acc.paramkinds ++ [arg.kind]
        paramdefaults := acc.paramdefaults ++ [arg.default.map gen]
        paramtypes := acc.paramtypes ++ [resolve arg.type] }
    let acc : ParametersInfo :=
      if arg.kind = ParameterKind.variadic then { acc with variadic := some argi }
      else acc
    if arg.kind = ParameterKind.namedOnly ∧ allowNamed = false then
      .error SchemaError.invalidParameterKindError
    else
      parametersFromAstGo resolve gen allowNamed (argi + 1) rest acc

/-- The function `parameters_from_ast(astnode, modaliases, schema, *,
allow_named=True)`.
The module-alias context and schema are folded into the external
`resolve` collaborator. -/
def parametersFromAst {σ ε : Type} (resolve : σ → TypeRef) (gen : ε → String)
    (args : List (FuncArg σ ε)) (allowNamed : Bool := true) :
    Except SchemaError ParametersInfo :=
  parametersFromAstGo resolve gen allowNamed 0 args
    { paramnames := [], paramdefaults := [], paramtypes := []
      paramtypemods := [], paramkinds := [], variadic := none }

/-! ## Overload-qualified names -/

/-- One qualifier with a terminated unary length prefix: `q.length` hash
marks, a colon, then the qualifier text. The terminator makes the prefix
unambiguous no matter what characters the qualifier contains. -/
def encodeQualChars (q : List Char) : List Char :=
  List.replicate q.length '#' ++ ':' :: q

/-- Concatenation of the encoded qualifiers, in order. -/
def encodeQualsChars : List (List Char) → List Char
  | [] => []
  | q :: qs => encodeQualChars q ++ encodeQualsChars qs

/-- Modelled from the spec: `named.NamedObject.get_specialized_name` is
not part of the sources; the spec describes it as the object model's
generic "specialize a name with qualifiers" operation, appending the
qualifier tokens to the base name with "a stable, collision-resistant
encoding — any two distinct ordered qualifier sequences must yield
distinct qualified names; identical sequences must yield identical
names". We realise it as the base local name, a `@@` marker, and the
length-prefixed concatenation of the qualifiers. -/
def getSpecializedName (base : Name) (quals : List String) : String :=
  base.name ++ "@@" ++ String.mk (encodeQualsChars (quals.map String.data))

/-- The per-parameter-type qualifier tokens of
`FunctionCommandMixin._get_function_fullname`: an `ObjectRef` contributes
its `classname`; a `Collection` contributes its `schema_name` followed by
its element's token (the element's `classname` when the element is an
`ObjectRef`, else the element's `name`); anything else contributes its
`name`. -/
def ptQuals : TypeRef → List String
  | .objectRef c => [c]
  | .collection sn el =>
    [sn, match el with
         | .objectRef c => c
         | e => e.name]
  | t => [t.name]

/-- The qualifier accumulation loop of `_get_function_fullname`
(`quals = []; for pt in paramtypes: ...`); the `if paramtypes:` guard in
the source only skips the loop when the list is empty or absent, which
the fold does on its own. -/
def funcQuals (paramtypes : List TypeRef) : List String :=
  paramtypes.foldl (fun quals pt => quals ++ ptQuals pt) []

/-- The method `FunctionCommandMixin._get_function_fullname(name,
paramtypes)`:
a `Name` in the base name's module whose local name is the
qualifier-specialized base name. -/
def getFunctionFullname (name : Name) (paramtypes : List TypeRef) : Name :=
  { module := name.module
    name := getSpecializedName name (funcQuals paramtypes) }

/-! ## Decoding the qualifier encoding (for the injectivity proof) -/

/-- Number of leading hash marks. -/
def countHash : List Char → Nat
  | c :: cs => if c = '#' then countHash cs + 1 else 0
  | [] => 0

/-- Fuel-indexed decoder for `encodeQualsChars`: read the unary length
prefix, skip the colon, split off that many characters, recurse. -/
def decodeQualsChars : Nat → List Char → List (List Char)
  | 0, _ => []
  | _ + 1, [] => []
  | fuel + 1, cs =>
    let n := countHash cs
    let rest := cs.drop (n + 1)
    rest.take n :: decodeQualsChars fuel (rest.drop n)

theorem decodeQualsChars_succ (fuel : Nat) (c : Char) (cs : List Char) :
    decodeQualsChars (fuel + 1) (c :: cs)
      = ((c :: cs).drop (countHash (c :: cs) + 1)).take (countHash (c :: cs))
        :: decodeQualsChars fuel
          (((c :: cs).drop (countHash (c :: cs) + 1)).drop
            (countHash (c :: cs))) := rfl

theorem decodeQualsChars_succ_ne (fuel : Nat) (cs : List Char) (h : cs ≠ []) :
    decodeQualsChars (fuel + 1) cs
      = (cs.drop (countHash cs + 1)).take (countHash cs)
        :: decodeQualsChars fuel
          ((cs.drop (countHash cs + 1)).drop (countHash cs)) := by
  cases cs with
  | nil => exact absurd rfl h
  | cons c cs => exact decodeQualsChars_succ fuel c cs

theorem countHash_replicate (n : Nat) (xs : List Char) :
    countHash (List.replicate n '#' ++ ':' :: xs) = n := by
  induction n with
  | zero => simp [countHash]
  | succ k ih => simpa [List.replicate_succ, countHash] using ih

theorem decodeQualsChars_encode (qs : List (List Char)) :
    ∀ fuel, qs.length ≤ fuel →
      decodeQualsChars fuel (encodeQualsChars qs) = qs := by
  induction qs with
  | nil =>
    intro fuel _
    cases fuel <;> simp [decodeQualsChars, encodeQualsChars]
  | cons q rest ih =>
    intro fuel hfuel
    match fuel, hfuel with
    | f + 1, hfuel =>
      have hcount : countHash (encodeQualChars q ++ encodeQualsChars rest)
          = q.length := by
        simpa [encodeQualChars] using
          countHash_replicate q.length (q ++ encodeQualsChars rest)
      have hdrop :
          (encodeQualChars q ++ encodeQualsChars rest).drop (q.length + 1)
            = q ++ encodeQualsChars rest := by
        have hlen : (List.replicate q.length '#' ++ [':']).length
            = q.length + 1 := by simp
        calc (encodeQualChars q ++ encodeQualsChars rest).drop (q.length + 1)
            = ((List.replicate q.length '#' ++ [':'])
                ++ (q ++ encodeQualsChars rest)).drop
                (List.replicate q.length '#' ++ [':']).length := by
              simp [encodeQualChars, hlen]
          _ = q ++ encodeQualsChars rest := List.drop_left _ _
      have hne : encodeQualChars q ++ encodeQualsChars rest ≠ [] := by
        simp [encodeQualChars]
      have htake : (q ++ encodeQualsChars rest).take q.length = q :=
        List.take_left _ _
      have hdrop2 : (q ++ encodeQualsChars rest).drop q.length
          = encodeQualsChars rest := List.drop_left _ _
      rw [show encodeQualsChars (q :: rest)
            = encodeQualChars q ++ encodeQualsChars rest from rfl,
        decodeQualsChars_succ_ne f _ hne, hcount, hdrop, htake, hdrop2,
        ih f (Nat.le_of_succ_le_succ hfuel)]

theorem encodeQualsChars_injective :
    Function.Injective encodeQualsChars := by
  intro a b h
  have ha := decodeQualsChars_encode a (a.length + b.length)
    (Nat.le_add_right _ _)
  have hb := decodeQualsChars_encode b (a.length + b.length)
    (Nat.le_add_left _ _)
  have h2 : decodeQualsChars (a.length + b.length) (encodeQualsChars a)
      = decodeQualsChars (a.length + b.length) (encodeQualsChars b) := by
    rw [h]
  rw [ha, hb] at h2
  exact h2

theorem getSpecializedName_injective (base : Name) :
    Function.Injective (getSpecializedName base) := by
  intro a b h
  unfold getSpecializedName at h
  have hdata : (base.name ++ "@@" ++
        String.mk (encodeQualsChars (a.map String.data))).data
      = (base.name ++ "@@" ++
        String.mk (encodeQualsChars (b.map String.data))).data := by
    rw [h]
  simp only [String.data_append] at hdata
  have henc : encodeQualsChars (a.map String.data)
      = encodeQualsChars (b.map String.data) :=
    List.append_cancel_left hdata
  have hmap : a.map String.data = b.map String.data :=
    encodeQualsChars_injective henc
  have hinj : Function.Injective String.data := by
    intro s t hst
    exact String.ext hst
  exact List.map_injective_iff.mpr hinj hmap

/-! ## Command tree, schema snapshot, Create and Delete -/

/-- A property value carried by a property command; one constructor per
value shape the Create-function compiler stores. -/
inductive PropValue where
  | strList (l : List String)
  | optStrList (l : List (Option String))
  | typeList (l : List TypeRef)
  | typemodList (l : List TypeModifier)
  | kindList (l : List ParameterKind)
  | typeref (t : TypeRef)
  | bool (b : Bool)
  | typemod (m : TypeModifier)
  | str (s : String)
  | optStr (s : Option String)
  | lang (l : Language)
deriving DecidableEq, Repr

/-- A leaf property-mutation command (`sd.AlterObjectProperty`). -/
structure AlterObjectProperty where
  property : String
  newValue : PropValue
deriving DecidableEq, Repr

/-- The Create-function command: the classname computed by the generic
superclass plus the ordered child property commands added by
`_cmd_tree_from_ast`. -/
structure CreateFunctionCmd where
  name : Name
  props : List AlterObjectProperty
deriving DecidableEq, Repr

/-- First property command (in order) with the given property name, as
the generic struct-property collection reads it. -/
def cmdGetProp (c : CreateFunctionCmd) (p : String) : Option PropValue :=
  (c.props.find? (fun ap => ap.property == p)).map (fun ap => ap.newValue)

/-- Whether the command tree carries a property command for `p`. -/
def cmdHasProp (c : CreateFunctionCmd) (p : String) : Bool :=
  c.props.any (fun ap => ap.property == p)

/-- The implementation-code block of the syntax tree
(`qlast.FunctionCode`): language, optional delegate-function name,
optional inline source. -/
structure FuncCode where
  language : Language
  fromName : Option String
  code : Option String
deriving DecidableEq, Repr

/-- The `CREATE FUNCTION` syntax node as `_cmd_tree_from_ast` reads it:
the resolved classname (computed by the generic superclass from the
statement's name and the module aliases), the argument list, the
syntactic return type, the aggregate flag, the return type modifier, the
optional initial-value expression, and the optional code block. -/
structure CreateFunctionAst (σ ε : Type) where
  name : Name
  args : List (FuncArg σ ε)
  returning : σ
  aggregate : Bool
  returningTypemod : TypeModifier
  initialValue : Option ε
  code : Option FuncCode
deriving DecidableEq, Repr

/-- The method `CreateFunction._cmd_tree_from_ast`: extract the parameters (with the
default `allow_named=True`), then add one property command each for the
five parameter sequences, the resolved return type, the aggregate flag
and the return type modifier; the rendered initial value when present;
and, when a code block is present, the language followed by either the
delegate name (`from_function`) or the inline source (`code`). -/
def cmdTreeFromAst {σ ε : Type} (resolve : σ → TypeRef) (gen : ε → String)
    (ast : CreateFunctionAst σ ε) : Except SchemaError CreateFunctionCmd := do
  let pi ← parametersFromAst resolve gen ast.args true
  pure { name := ast.name
         props :=
           [⟨"paramnames", .strList pi.paramnames⟩,
            ⟨"paramtypes", .typeList pi.paramtypes⟩,
            ⟨"paramtypemods", .typemodList pi.paramtypemods⟩,
            ⟨"paramkinds", .kindList pi.paramkinds⟩,
            ⟨"paramdefaults", .optStrList pi.paramdefaults⟩,
            ⟨"return_type", .typeref (resolve ast.returning)⟩,
            ⟨"aggregate", .bool ast.aggregate⟩,
            ⟨"return_typemod", .typemod ast.returningTypemod⟩]
           ++ (match ast.initialValue with
               | some iv => [⟨"initial_value", .str (gen iv)⟩]
               | none => [])
           ++ (match ast.code with
               | some c =>
                 ⟨"language", .lang c.language⟩ ::
                   (match c.fromName with
                    | some fn => [⟨"from_function", .str fn⟩]
                    | none => [⟨"code", .optStr c.code⟩])
               | none => []) }

/-- The `paramtypes` struct property of a command tree, as
`get_struct_properties` hands it to `_get_function_fullname`
(`props.get('paramtypes')`, absent meaning no quals). -/
def cmdParamtypes (c : CreateFunctionCmd) : List TypeRef :=
  match cmdGetProp c "paramtypes" with
  | some (.typeList l) => l
  | _ => []

/-- The `paramnames` struct property (`props['paramnames']`). -/
def cmdParamnames (c : CreateFunctionCmd) : List String :=
  match cmdGetProp c "paramnames" with
  | some (.strList l) => l
  | _ => []

/-- The `paramdefaults` struct property (`props['paramdefaults']`). -/
def cmdParamdefaults (c : CreateFunctionCmd) : List (Option String) :=
  match cmdGetProp c "paramdefaults" with
  | some (.optStrList l) => l
  | _ => []

/-- The name override of `CreateFunction.get_struct_properties`: the
overload-qualified name computed from the base classname and the
`paramtypes` property. -/
def createStructName (c : CreateFunctionCmd) : Name :=
  getFunctionFullname c.name (cmdParamtypes c)

/-- A `Function` schema object (the fields declared on `class Function`).
Fields without an explicit value keep the declared default (`None`,
i.e. `none`; `False` for `aggregate`). -/
structure FunctionObj where
  name : Name
  paramnames : Option (List String) := none
  paramtypes : Option (List TypeRef) := none
  paramtypemods : Option (List TypeModifier) := none
  paramkinds : Option (List ParameterKind) := none
  paramdefaults : Option (List (Option String)) := none
  returnType : Option TypeRef := none
  aggregate : Bool := false
  code : Option String := none
  language : Option Language := none
  fromFunction : Option String := none
  initialValue : Option String := none
  returnTypemod : Option TypeModifier := none
deriving DecidableEq, Repr

/-- Apply one property command to a function object (the generic
field-assignment step of Create application). -/
def applyProp (f : FunctionObj) (ap : AlterObjectProperty) : FunctionObj :=
  match ap.property, ap.newValue with
  | "paramnames", .strList l => { f with paramnames := some l }
  | "paramtypes", .typeList l => { f with paramtypes := some l }
  | "paramtypemods", .typemodList l => { f with paramtypemods := some l }
  | "paramkinds", .kindList l => { f with paramkinds := some l }
  | "paramdefaults", .optStrList l => { f with paramdefaults := some l }
  | "return_type", .typeref t => { f with returnType := some t }
  | "aggregate", .bool b => { f with aggregate := b }
  | "return_typemod", .typemod m => { f with returnTypemod := some m }
  | "initial_value", .str s => { f with initialValue := some s }
  | "language", .lang l => { f with language := some l }
  | "from_function", .str s => { f with fromFunction := some s }
  | "code", .optStr s => { f with code := s }
  | _, _ => f

/-- Modelled from the spec: the generic Create application
(`named.CreateNamedObject`, not part of the sources) "instantiates a new
object at the computed name with defaults, then applies child property
commands". The object's name is the overload-qualified struct name. -/
def funcFromCmd (c : CreateFunctionCmd) : FunctionObj :=
  c.props.foldl applyProp { name := createStructName c }

/-- Modelled from the spec: the schema snapshot is "an immutable
point-in-time value holding all schema objects, keyed by qualified
name"; we keep it as an association list. -/
structure Schema where
  objects : List (Name × FunctionObj)
deriving DecidableEq, Repr

/-- Lookup by qualified name (`schema.get(fullname, None)`). -/
def Schema.get (s : Schema) (n : Name) : Option FunctionObj :=
  (s.objects.find? (fun p => p.1 == n)).map (fun p => p.2)

/-- Adding an object to the snapshot (the successful tail of
`super()._add_to_schema`, modelled from the spec's Create semantics). -/
def Schema.insert (s : Schema) (n : Name) (f : FunctionObj) : Schema :=
  ⟨s.objects ++ [(n, f)]⟩

/-- The method `CreateFunction._add_to_schema`: recompute the struct
properties and
the overload-qualified fullname, fail with `PolymorphicDefaultError` when
some zipped (name, type, default) triple has type name `std::any` and a
present default, fail with `DuplicateSignatureError` when the fullname is
already mapped in the snapshot, else add the new object. -/
def addToSchema (schema : Schema) (c : CreateFunctionCmd) :
    Except SchemaError Schema :=
  let paramtypes := cmdParamtypes c
  let fullname := getFunctionFullname c.name paramtypes
  let paramnames := cmdParamnames c
  let paramdefaults := cmdParamdefaults c
  if (paramnames.zip (paramtypes.zip paramdefaults)).any
      (fun t => t.2.1.name == "std::any" && t.2.2.isSome) then
    .error SchemaError.polymorphicDefaultError
  else
    match schema.get fullname with
    | some _ => .error SchemaError.duplicateSignatureError
    | none => .ok (schema.insert fullname (funcFromCmd c))

/-- A full Create compile: build the command tree from the syntax node,
then add the function to the snapshot. -/
def compileCreate {σ ε : Type} (resolve : σ → TypeRef) (gen : ε → String)
    (ast : CreateFunctionAst σ ε) (schema : Schema) :
    Except SchemaError Schema := do
  let c ← cmdTreeFromAst resolve gen ast
  addToSchema schema c

/-- The `DROP FUNCTION` syntax node as `DeleteFunction._classname_from_ast`
reads it: the base classname resolved by the generic superclass, plus the
syntactic argument list. -/
structure DropFunctionAst (σ ε : Type) where
  name : Name
  args : List (FuncArg σ ε)
deriving DecidableEq, Repr

/-- The method `DeleteFunction._classname_from_ast`: extract the
parameters (the
call leaves `allow_named` at its default `True`) and qualify the base
name with their types. -/
def deleteClassnameFromAst {σ ε : Type} (resolve : σ → TypeRef)
    (gen : ε → String) (ast : DropFunctionAst σ ε) :
    Except SchemaError Name := do
  let pi ← parametersFromAst resolve gen ast.args true
  pure (getFunctionFullname ast.name pi.paramtypes)

/-! ## Characterisation of parameter extraction -/

/-- The value the extraction loop's variadic bookkeeping ends at when
numbering starts at `argi`: the index of the last VARIADIC argument. -/
def lastVariadicFrom {σ ε : Type} (argi : Nat) :
    List (FuncArg σ ε) → Option Nat
  | [] => none
  | a :: rest =>
    match lastVariadicFrom (argi + 1) rest with
    | some j => some j
    | none =>
      if a.kind = ParameterKind.variadic then some argi else none

theorem parametersFromAstGo_ok {σ ε : Type} (resolve : σ → TypeRef)
    (gen : ε → String) (allowNamed : Bool) (args : List (FuncArg σ ε)) :
    ∀ (argi : Nat) (acc : ParametersInfo),
      (allowNamed = true ∨ ∀ a ∈ args, a.kind ≠ ParameterKind.namedOnly) →
      parametersFromAstGo resolve gen allowNamed argi args acc =
        .ok { paramnames := acc.paramnames ++ args.map (fun a => a.name)
              paramdefaults :=
                acc.paramdefaults ++ args.map (fun a => a.default.map gen)
              paramtypes :=
                acc.paramtypes ++ args.map (fun a => resolve a.type)
              paramtypemods :=
                acc.paramtypemods ++ args.map (fun a => a.typemod)
              paramkinds := acc.paramkinds ++ args.map (fun a => a.kind)
              variadic :=
                match lastVariadicFrom argi args with
                | some j => some j
                | none => acc.variadic } := by
  induction args with
  | nil =>
    intro argi acc h
    simp [parametersFromAstGo, lastVariadicFrom]
  | cons a rest ih =>
    intro argi acc h
    have hnotstop : ¬(a.kind = ParameterKind.namedOnly ∧ allowNamed = false) := by
      rcases h with h | h
      · simp [h]
      · intro hc
        exact h a (List.mem_cons_self a rest) hc.1
    have hrest : allowNamed = true ∨
        ∀ x ∈ rest, x.kind ≠ ParameterKind.namedOnly := by
      rcases h with h | h
      · exact Or.inl h
      · exact Or.inr fun x hx => h x (List.mem_cons_of_mem a hx)
    simp only [parametersFromAstGo]
    rw [if_neg hnotstop, ih (argi + 1) _ hrest]
    cases hl : lastVariadicFrom (argi + 1) rest with
    | some j =>
      by_cases hv : a.kind = ParameterKind.variadic <;>
        simp [hv, lastVariadicFrom, hl, List.append_assoc]
    | none =>
      by_cases hv : a.kind = ParameterKind.variadic <;>
        simp [hv, lastVariadicFrom, hl, List.append_assoc]

/-- A successful extraction returns the five per-argument sequences in
declaration order and the last variadic index. -/
theorem parametersFromAst_ok {σ ε : Type} (resolve : σ → TypeRef)
    (gen : ε → String) (args : List (FuncArg σ ε)) (allowNamed : Bool)
    (h : allowNamed = true ∨ ∀ a ∈ args, a.kind ≠ ParameterKind.namedOnly) :
    parametersFromAst resolve gen args allowNamed =
      .ok { paramnames := args.map (fun a => a.name)
            paramdefaults := args.map (fun a => a.default.map gen)
            paramtypes := args.map (fun a => resolve a.type)
            paramtypemods := args.map (fun a => a.typemod)
            paramkinds := args.map (fun a => a.kind)
            variadic := lastVariadicFrom 0 args } := by
  rw [parametersFromAst, parametersFromAstGo_ok resolve gen allowNamed args 0 _ h]
  cases hl : lastVariadicFrom 0 args <;> simp [hl]

theorem parametersFromAstGo_error_iff {σ ε : Type} (resolve : σ → TypeRef)
    (gen : ε → String) (allowNamed : Bool) (args : List (FuncArg σ ε)) :
    ∀ (argi : Nat) (acc : ParametersInfo),
      (parametersFromAstGo resolve gen allowNamed argi args acc =
        .error SchemaError.invalidParameterKindError) ↔
      (allowNamed = false ∧ ∃ a ∈ args, a.kind = ParameterKind.namedOnly) := by
  induction args with
  | nil =>
    intro argi acc
    simp [parametersFromAstGo]
  | cons a rest ih =>
    intro argi acc
    by_cases hstop : a.kind = ParameterKind.namedOnly ∧ allowNamed = false
    · simp only [parametersFromAstGo]
      rw [if_pos hstop]
      simp [hstop.1, hstop.2]
    · simp only [parametersFromAstGo]
      rw [if_neg hstop]
      rw [ih (argi + 1)]
      constructor
      · rintro ⟨hfalse, x, hx, hk⟩
        exact ⟨hfalse, x, List.mem_cons_of_mem a hx, hk⟩
      · rintro ⟨hfalse, x, hx, hk⟩
        refine ⟨hfalse, ?_⟩
        rcases List.mem_cons.mp hx with rfl | hx
        · exact absurd ⟨hk, hfalse⟩ hstop
        · exact ⟨x, hx, hk⟩

/-- Extraction fails (necessarily with `InvalidParameterKindError`) iff
named-only parameters are disallowed and one is present. -/
theorem parametersFromAst_error_iff {σ ε : Type} (resolve : σ → TypeRef)
    (gen : ε → String) (args : List (FuncArg σ ε)) (allowNamed : Bool) :
    (parametersFromAst resolve gen args allowNamed =
      .error SchemaError.invalidParameterKindError) ↔
    (allowNamed = false ∧ ∃ a ∈ args, a.kind = ParameterKind.namedOnly) :=
  parametersFromAstGo_error_iff resolve gen allowNamed args 0 _

/-- The Create command tree in closed form: extraction with
`allow_named=True` never fails, and each property command carries the
corresponding per-argument sequence. -/
theorem cmdTreeFromAst_eq {σ ε : Type} (resolve : σ → TypeRef)
    (gen : ε → String) (ast : CreateFunctionAst σ ε) :
    cmdTreeFromAst resolve gen ast =
      .ok { name := ast.name
            props :=
              [⟨"paramnames", .strList (ast.args.map (fun a => a.name))⟩,
               ⟨"paramtypes",
                .typeList (ast.args.map (fun a => resolve a.type))⟩,
               ⟨"paramtypemods",
                .typemodList (ast.args.map (fun a => a.typemod))⟩,
               ⟨"paramkinds", .kindList (ast.args.map (fun a => a.kind))⟩,
               ⟨"paramdefaults",
                .optStrList (ast.args.map (fun a => a.default.map gen))⟩,
               ⟨"return_type", .typeref (resolve ast.returning)⟩,
               ⟨"aggregate", .bool ast.aggregate⟩,
               ⟨"return_typemod", .typemod ast.returningTypemod⟩]
              ++ (match ast.initialValue with
                  | some iv => [⟨"initial_value", .str (gen iv)⟩]
                  | none => [])
              ++ (match ast.code with
                  | some c =>
                    ⟨"language", .lang c.language⟩ ::
                      (match c.fromName with
                       | some fn => [⟨"from_function", .str fn⟩]
                       | none => [⟨"code", .optStr c.code⟩])
                  | none => []) } := by
  rw [cmdTreeFromAst,
    parametersFromAst_ok resolve gen ast.args true (Or.inl rfl)]
  rfl

/-- The struct `paramtypes` the command tree hands to
`_get_function_fullname` are the resolved argument types, in order. -/
theorem cmdParamtypes_tree {σ ε : Type} (resolve : σ → TypeRef)
    (gen : ε → String) (ast : CreateFunctionAst σ ε) (c : CreateFunctionCmd)
    (hok : cmdTreeFromAst resolve gen ast = .ok c) :
    cmdParamtypes c = ast.args.map (fun a => resolve a.type) := by
  rw [cmdTreeFromAst_eq] at hok
  cases hok
  rfl

/-- C6: for every valid parameter list (at most one VARIADIC argument),
`extract_parameters` returns the four sequences of names, types, type
modifiers and passing kinds with equal length — each the per-argument map
in declaration order, hence of length the number of arguments — and the
returned kinds sequence has at most one VARIADIC entry. -/
theorem extract_parameters_shape {σ ε : Type} (resolve : σ → TypeRef)
    (gen : ε → String) (args : List (FuncArg σ ε)) (allowNamed : Bool)
    (pi : ParametersInfo)
    (hok : parametersFromAst resolve gen args allowNamed = .ok pi)
    (hvalid :
      args.countP (fun a => a.kind == ParameterKind.variadic) ≤ 1) :
    pi.paramnames = args.map (fun a => a.name) ∧
    pi.paramtypes = args.map (fun a => resolve a.type) ∧
    pi.paramtypemods = args.map (fun a => a.typemod) ∧
    pi.paramkinds = args.map (fun a => a.kind) ∧
    pi.paramnames.length = args.length ∧
    pi.paramtypes.length = args.length ∧
    pi.paramtypemods.length = args.length ∧
    pi.paramkinds.length = args.length ∧
    pi.paramkinds.countP (fun k => k == ParameterKind.variadic) ≤ 1 := by
  have hok' : parametersFromAst resolve gen args allowNamed =
      .ok { paramnames := args.map (fun a => a.name)
            paramdefaults := args.map (fun a => a.default.map gen)
            paramtypes := args.map (fun a => resolve a.type)
            paramtypemods := args.map (fun a => a.typemod)
            paramkinds := args.map (fun a => a.kind)
            variadic := lastVariadicFrom 0 args } := by
    cases allowNamed with
    | true => exact parametersFromAst_ok resolve gen args true (Or.inl rfl)
    | false =>
      by_cases hn : ∀ a ∈ args, a.kind ≠ ParameterKind.namedOnly
      · exact parametersFromAst_ok resolve gen args false (Or.inr hn)
      · exfalso
        push_neg at hn
        obtain ⟨a, ha, hk⟩ := hn
        have herr := (parametersFromAst_error_iff resolve gen args false).mpr
          ⟨rfl, a, ha, hk⟩
        rw [hok] at herr
        exact Except.noConfusion herr
  rw [hok] at hok'
  cases hok'
  refine ⟨rfl, rfl, rfl, rfl, by simp, by simp, by simp, by simp, ?_⟩
  simpa [List.countP_map, Function.comp] using hvalid

/-- C6 witness at a concrete one-parameter list. -/
theorem extract_parameters_shape_witness :
    (parametersFromAst (σ := TypeRef) (ε := String) (fun t => t)
        (fun s => s)
        [⟨"a", TypeRef.scalar "std::int64", TypeModifier.singleton,
          ParameterKind.positional, none⟩] true =
      .ok { paramnames := ["a"]
            paramdefaults := [none]
            paramtypes := [TypeRef.scalar "std::int64"]
            paramtypemods := [TypeModifier.singleton]
            paramkinds := [ParameterKind.positional]
            variadic := none }) ∧
    ([⟨"a", TypeRef.scalar "std::int64", TypeModifier.singleton,
        ParameterKind.positional, none⟩] :
      List (FuncArg TypeRef String)).countP
        (fun a => a.kind == ParameterKind.variadic) ≤ 1 ∧
    ({ paramnames := ["a"]
       paramdefaults := [none]
       paramtypes := [TypeRef.scalar "std::int64"]
       paramtypemods := [TypeModifier.singleton]
       paramkinds := [ParameterKind.positional]
       variadic := none } : ParametersInfo).paramkinds.length = 1 :=
  ⟨by rfl, by decide,
    (extract_parameters_shape (fun t => t) (fun s => s)
      [⟨"a", TypeRef.scalar "std::int64", TypeModifier.singleton,
        ParameterKind.positional, none⟩] true _ (by rfl)
      (by decide)).2.2.2.2.2.2.2.1⟩

theorem lastVariadicFrom_shift {σ ε : Type} (args : List (FuncArg σ ε)) :
    ∀ argi, lastVariadicFrom argi args =
      (lastVariadicFrom 0 args).map (fun j => j + argi) := by
  induction args with
  | nil => intro argi; simp [lastVariadicFrom]
  | cons a rest ih =>
    intro argi
    simp only [lastVariadicFrom, ih (argi + 1), ih 1]
    cases h0 : lastVariadicFrom 0 rest with
    | some j =>
      simp [Option.map]
      omega
    | none =>
      by_cases hv : a.kind = ParameterKind.variadic <;> simp [Option.map, hv]

theorem lastVariadicFrom_none_iff {σ ε : Type} (args : List (FuncArg σ ε)) :
    lastVariadicFrom 0 args = none ↔
      ∀ a ∈ args, a.kind ≠ ParameterKind.variadic := by
  induction args with
  | nil => simp [lastVariadicFrom]
  | cons a rest ih =>
    simp only [lastVariadicFrom, lastVariadicFrom_shift rest 1]
    cases h0 : lastVariadicFrom 0 rest with
    | some j =>
      simp only [Option.map_some']
      constructor
      · intro h
        exact Option.noConfusion h
      · intro h
        exact absurd (ih.mpr fun x hx => h x (List.mem_cons_of_mem a hx))
          (by simp [h0])
    | none =>
      have hrest : ∀ x ∈ rest, x.kind ≠ ParameterKind.variadic := ih.mp h0
      by_cases hv : a.kind = ParameterKind.variadic
      · simp only [Option.map_none', hv, if_pos rfl]
        constructor
        · intro h; exact Option.noConfusion h
        · intro h; exact absurd hv (h a (List.mem_cons_self a rest))
      · simp only [Option.map_none', if_neg hv]
        constructor
        · intro _ x hx
          rcases List.mem_cons.mp hx with rfl | hx
          · exact hv
          · exact hrest x hx
        · intro _; trivial

theorem lastVariadicFrom_zero_some {σ ε : Type} (args : List (FuncArg σ ε)) :
    ∀ j, lastVariadicFrom 0 args = some j →
      (∃ a, args[j]? = some a ∧ a.kind = ParameterKind.variadic) ∧
      ∀ k a', j < k → args[k]? = some a' →
        a'.kind ≠ ParameterKind.variadic := by
  induction args with
  | nil => intro j h; exact Option.noConfusion h
  | cons a rest ih =>
    intro j
    simp only [lastVariadicFrom, lastVariadicFrom_shift rest 1]
    cases h0 : lastVariadicFrom 0 rest with
    | some i =>
      simp only [Option.map_some']
      intro h
      have hj : j = i + 1 := (Option.some.inj h).symm
      subst hj
      obtain ⟨⟨x, hx, hxk⟩, hafter⟩ := ih i h0
      refine ⟨⟨x, by simpa using hx, hxk⟩, ?_⟩
      intro k a' hk hget
      match k, hk with
      | k + 1, hk =>
        exact hafter k a' (Nat.lt_of_succ_lt_succ hk) (by simpa using hget)
    | none =>
      simp only [Option.map_none']
      by_cases hv : a.kind = ParameterKind.variadic
      · rw [if_pos hv]
        intro h
        have hj : j = 0 := (Option.some.inj h).symm
        subst hj
        refine ⟨⟨a, by simp, hv⟩, ?_⟩
        intro k a' hk hget
        match k, hk with
        | k + 1, _ =>
          exact (lastVariadicFrom_none_iff rest).mp h0 a'
            (List.getElem?_mem (by simpa using hget))
      · rw [if_neg hv]
        intro h
        exact Option.noConfusion h

/-- C7 counterexample: on a two-parameter list whose parameters are both
VARIADIC, the extraction returns variadic index 1 (the last), while the
first VARIADIC parameter sits at index 0, so the recorded index is not
the first occurrence. -/
theorem extract_parameters_variadic_first_cex :
    (parametersFromAst (σ := TypeRef) (ε := String) (fun t => t)
        (fun s => s)
        [⟨"a", TypeRef.scalar "std::int64", TypeModifier.singleton,
          ParameterKind.variadic, none⟩,
         ⟨"b", TypeRef.scalar "std::str", TypeModifier.singleton,
          ParameterKind.variadic, none⟩] true).toOption.map
        (fun pi => pi.variadic) = some (some 1) ∧
    List.findIdx?
      (fun a => a.kind == ParameterKind.variadic)
      ([⟨"a", TypeRef.scalar "std::int64", TypeModifier.singleton,
          ParameterKind.variadic, none⟩,
        ⟨"b", TypeRef.scalar "std::str", TypeModifier.singleton,
          ParameterKind.variadic, none⟩] :
        List (FuncArg TypeRef String)) = some 0 ∧
    some (some (1 : Nat)) ≠ some (some 0) := by
  refine ⟨by rfl, by rfl, by decide⟩

/-- C7 amended: the `variadic` field of a successful extraction is the
index of the LAST parameter whose passing kind is VARIADIC when at least
one such parameter exists (the loop overwrites the index on every
VARIADIC argument), and `none` when no parameter is VARIADIC. -/
theorem extract_parameters_variadic_last {σ ε : Type} (resolve : σ → TypeRef)
    (gen : ε → String) (args : List (FuncArg σ ε)) (allowNamed : Bool)
    (pi : ParametersInfo)
    (hok : parametersFromAst resolve gen args allowNamed = .ok pi) :
    (pi.variadic = none ↔ ∀ a ∈ args, a.kind ≠ ParameterKind.variadic) ∧
    (∀ j, pi.variadic = some j →
      (∃ a, args[j]? = some a ∧ a.kind = ParameterKind.variadic) ∧
      ∀ k a', j < k → args[k]? = some a' →
        a'.kind ≠ ParameterKind.variadic) := by
  have hvar : pi.variadic = lastVariadicFrom 0 args := by
    cases allowNamed with
    | true =>
      rw [parametersFromAst_ok resolve gen args true (Or.inl rfl)] at hok
      cases hok
      rfl
    | false =>
      by_cases hn : ∀ a ∈ args, a.kind ≠ ParameterKind.namedOnly
      · rw [parametersFromAst_ok resolve gen args false (Or.inr hn)] at hok
        cases hok
        rfl
      · exfalso
        push_neg at hn
        obtain ⟨a, ha, hk⟩ := hn
        have herr := (parametersFromAst_error_iff resolve gen args false).mpr
          ⟨rfl, a, ha, hk⟩
        rw [hok] at herr
        exact Except.noConfusion herr
  rw [hvar]
  exact ⟨lastVariadicFrom_none_iff args, lastVariadicFrom_zero_some args⟩

/-- C7 witness at a concrete list with one VARIADIC parameter. -/
theorem extract_parameters_variadic_last_witness :
    (∃ a, ([⟨"a", TypeRef.scalar "std::int64", TypeModifier.singleton,
        ParameterKind.variadic, none⟩] :
        List (FuncArg TypeRef String))[0]? = some a ∧
      a.kind = ParameterKind.variadic) :=
  ((extract_parameters_variadic_last (σ := TypeRef) (ε := String)
      (fun t => t) (fun s => s)
      [⟨"a", TypeRef.scalar "std::int64", TypeModifier.singleton,
        ParameterKind.variadic, none⟩] true
      { paramnames := ["a"]
        paramdefaults := [none]
        paramtypes := [TypeRef.scalar "std::int64"]
        paramtypemods := [TypeModifier.singleton]
        paramkinds := [ParameterKind.variadic]
        variadic := some 0 } (by rfl)).2 0 rfl).1

/-- C8: extraction fails with `InvalidParameterKindError` exactly when
`allow_named` is false and some parameter's passing kind is NAMED_ONLY;
with `allow_named` true every list is accepted (extraction succeeds). -/
theorem extract_parameters_named_only {σ ε : Type} (resolve : σ → TypeRef)
    (gen : ε → String) (args : List (FuncArg σ ε)) (allowNamed : Bool) :
    ((parametersFromAst resolve gen args allowNamed =
        .error SchemaError.invalidParameterKindError) ↔
      (allowNamed = false ∧
        ∃ a ∈ args, a.kind = ParameterKind.namedOnly)) ∧
    (allowNamed = true →
      ∃ pi, parametersFromAst resolve gen args allowNamed = .ok pi) := by
  refine ⟨parametersFromAst_error_iff resolve gen args allowNamed, ?_⟩
  intro h
  subst h
  exact ⟨_, parametersFromAst_ok resolve gen args true (Or.inl rfl)⟩

/-- C8 witness: a named-only parameter with `allow_named` false is
rejected at a concrete input. -/
theorem extract_parameters_named_only_witness :
    parametersFromAst (σ := TypeRef) (ε := String) (fun t => t) (fun s => s)
      [⟨"a", TypeRef.scalar "std::int64", TypeModifier.singleton,
        ParameterKind.namedOnly, none⟩] false =
      .error SchemaError.invalidParameterKindError :=
  (extract_parameters_named_only (fun t => t) (fun s => s)
    [⟨"a", TypeRef.scalar "std::int64", TypeModifier.singleton,
      ParameterKind.namedOnly, none⟩] false).1.mpr
    ⟨rfl, ⟨"a", TypeRef.scalar "std::int64", TypeModifier.singleton,
      ParameterKind.namedOnly, none⟩, by decide, rfl⟩

/-- C3: the overload-qualified-name computation is deterministic (equal
base names and equal ordered parameter-type lists give equal qualified
names) and injective over the derived qualifier-token sequences (with
the same base name, parameter-type lists whose qualifier-token sequences
differ give distinct qualified names). -/
theorem qualify_name_deterministic_injective (base : Name)
    (pts1 pts2 : List TypeRef) :
    (pts1 = pts2 →
      getFunctionFullname base pts1 = getFunctionFullname base pts2) ∧
    (funcQuals pts1 ≠ funcQuals pts2 →
      getFunctionFullname base pts1 ≠ getFunctionFullname base pts2) := by
  constructor
  · intro h
    rw [h]
  · intro hq heq
    have hname : getSpecializedName base (funcQuals pts1)
        = getSpecializedName base (funcQuals pts2) :=
      congrArg Name.name heq
    exact hq (getSpecializedName_injective base hname)

/-- C3 witness: determinism and injectivity at concrete type lists whose
qualifier tokens differ. -/
theorem qualify_name_deterministic_injective_witness :
    (getFunctionFullname ⟨"std", "f"⟩ [TypeRef.scalar "std::int64"]
      = getFunctionFullname ⟨"std", "f"⟩ [TypeRef.scalar "std::int64"]) ∧
    (getFunctionFullname ⟨"std", "f"⟩ [TypeRef.scalar "std::int64"]
      ≠ getFunctionFullname ⟨"std", "f"⟩ [TypeRef.scalar "std::str"]) :=
  ⟨(qualify_name_deterministic_injective ⟨"std", "f"⟩
      [TypeRef.scalar "std::int64"] [TypeRef.scalar "std::int64"]).1 rfl,
    (qualify_name_deterministic_injective ⟨"std", "f"⟩
      [TypeRef.scalar "std::int64"] [TypeRef.scalar "std::str"]).2
      (by decide)⟩

/-- The qualifier-token derivation as the specification words it: a
forward reference contributes the referenced object's qualified name; a
container type contributes the container's schema name followed by a
second token for its element (the element's qualified name when the
element is a forward reference, else the element's plain name); any
other type contributes its plain name. -/
def specTokensOf : TypeRef → List String
  | .objectRef qualifiedName => [qualifiedName]
  | .collection schemaName element =>
    [schemaName,
     match element with
     | .objectRef q => q
     | e => TypeRef.name e]
  | t => [TypeRef.name t]

theorem funcQuals_foldl_init (pts : List TypeRef) :
    ∀ init : List String,
      pts.foldl (fun quals pt => quals ++ ptQuals pt) init
        = init ++ (pts.map ptQuals).flatten := by
  induction pts with
  | nil => intro init; simp
  | cons pt rest ih =>
    intro init
    simp only [List.foldl_cons, List.map_cons, List.flatten_cons, ih,
      List.append_assoc]

/-- C4: the qualifier tokens used to build the overload-qualified name
are, per parameter type in order, exactly the tokens the specification
describes, and the resulting name keeps the base name's module. -/
theorem qualifier_tokens_per_spec (base : Name) (pts : List TypeRef) :
    funcQuals pts = (pts.map specTokensOf).flatten ∧
    (getFunctionFullname base pts).module = base.module := by
  constructor
  · have hpt : ptQuals = specTokensOf := by
      funext t
      cases t with
      | objectRef c => rfl
      | collection sn el => cases el <;> rfl
      | scalar n => rfl
    rw [funcQuals, funcQuals_foldl_init pts [], hpt]
    simp
  · rfl

/-- C10: for an empty parameter-type list the overload-qualified name is
still the base name passed through the generic name-specialization
operation with zero qualifier tokens — which differs from the plain base
local name — and it keeps the base name's module. -/
theorem zero_param_fullname_specialized (base : Name) :
    getFunctionFullname base []
      = { module := base.module, name := getSpecializedName base [] } ∧
    getSpecializedName base [] ≠ base.name := by
  refine ⟨rfl, ?_⟩
  intro h
  have hd := congrArg String.data h
  simp only [getSpecializedName, String.data_append] at hd
  have hlen := congrArg List.length hd
  simp only [List.length_append, List.length_cons, List.length_nil] at hlen
  omega

/-- Mapping then testing with `List.any`, for arbitrary element types. -/
theorem any_map_hetero {α β : Type} (f : α → β) (p : β → Bool)
    (l : List α) : (l.map f).any p = l.any (fun a => p (f a)) := by
  induction l with
  | nil => rfl
  | cons x xs ih => simp [ih]

/-- Case analysis of a full Create compile: the polymorphic-default
check fires exactly when some argument resolves to `std::any` and has a
default, and when it does not fire a snapshot hit on the
overload-qualified name yields the duplicate-signature failure. -/
theorem compileCreate_cases {σ ε : Type} (resolve : σ → TypeRef)
    (gen : ε → String) (ast : CreateFunctionAst σ ε) (schema : Schema) :
    ((compileCreate resolve gen ast schema =
        .error SchemaError.polymorphicDefaultError) ↔
      ∃ a ∈ ast.args, TypeRef.name (resolve a.type) = "std::any" ∧
        a.default.isSome = true) ∧
    ((∀ a ∈ ast.args, ¬(TypeRef.name (resolve a.type) = "std::any" ∧
        a.default.isSome = true)) →
      ∀ f, schema.get (getFunctionFullname ast.name
          (ast.args.map (fun a => resolve a.type))) = some f →
        compileCreate resolve gen ast schema =
          .error SchemaError.duplicateSignatureError) := by
  have hcc : compileCreate resolve gen ast schema =
      addToSchema schema
        { name := ast.name
          props :=
            [⟨"paramnames", .strList (ast.args.map (fun a => a.name))⟩,
             ⟨"paramtypes",
              .typeList (ast.args.map (fun a => resolve a.type))⟩,
             ⟨"paramtypemods",
              .typemodList (ast.args.map (fun a => a.typemod))⟩,
             ⟨"paramkinds", .kindList (ast.args.map (fun a => a.kind))⟩,
             ⟨"paramdefaults",
              .optStrList (ast.args.map (fun a => a.default.map gen))⟩,
             ⟨"return_type", .typeref (resolve ast.returning)⟩,
             ⟨"aggregate", .bool ast.aggregate⟩,
             ⟨"return_typemod", .typemod ast.returningTypemod⟩]
            ++ (match ast.initialValue with
                | some iv => [⟨"initial_value", .str (gen iv)⟩]
                | none => [])
            ++ (match ast.code with
                | some c =>
                  ⟨"language", .lang c.language⟩ ::
                    (match c.fromName with
                     | some fn => [⟨"from_function", .str fn⟩]
                     | none => [⟨"code", .optStr c.code⟩])
                | none => []) } := by
    unfold compileCreate
    rw [cmdTreeFromAst_eq]
    rfl
  set cLit : CreateFunctionCmd :=
    { name := ast.name
      props :=
        [⟨"paramnames", .strList (ast.args.map (fun a => a.name))⟩,
         ⟨"paramtypes",
          .typeList (ast.args.map (fun a => resolve a.type))⟩,
         ⟨"paramtypemods",
          .typemodList (ast.args.map (fun a => a.typemod))⟩,
         ⟨"paramkinds", .kindList (ast.args.map (fun a => a.kind))⟩,
         ⟨"paramdefaults",
          .optStrList (ast.args.map (fun a => a.default.map gen))⟩,
         ⟨"return_type", .typeref (resolve ast.returning)⟩,
         ⟨"aggregate", .bool ast.aggregate⟩,
         ⟨"return_typemod", .typemod ast.returningTypemod⟩]
        ++ (match ast.initialValue with
            | some iv => [⟨"initial_value", .str (gen iv)⟩]
            | none => [])
        ++ (match ast.code with
            | some c =>
              ⟨"language", .lang c.language⟩ ::
                (match c.fromName with
                 | some fn => [⟨"from_function", .str fn⟩]
                 | none => [⟨"code", .optStr c.code⟩])
            | none => []) } with hcLit
  have h1 : cmdParamnames cLit = ast.args.map (fun a => a.name) := rfl
  have h2 : cmdParamtypes cLit = ast.args.map (fun a => resolve a.type) := rfl
  have h3 : cmdParamdefaults cLit =
      ast.args.map (fun a => a.default.map gen) := rfl
  have hname : cLit.name = ast.name := rfl
  have hadd : addToSchema schema cLit =
      if (ast.args.any (fun a =>
          (TypeRef.name (resolve a.type) == "std::any") &&
            a.default.isSome)) = true then
        .error SchemaError.polymorphicDefaultError
      else
        match schema.get (getFunctionFullname ast.name
            (ast.args.map (fun a => resolve a.type))) with
        | some _ => .error SchemaError.duplicateSignatureError
        | none =>
          .ok (schema.insert
            (getFunctionFullname ast.name
              (ast.args.map (fun a => resolve a.type)))
            (funcFromCmd cLit)) := by
    simp only [addToSchema]
    rw [h1, h2, h3, List.zip_map', List.zip_map', any_map_hetero]
    simp only [Option.isSome_map']
  rw [hcc, hadd]
  constructor
  · by_cases hb : (ast.args.any (fun a =>
        (TypeRef.name (resolve a.type) == "std::any") &&
          a.default.isSome)) = true
    · rw [if_pos hb]
      constructor
      · intro _
        obtain ⟨a, ha, hpa⟩ := List.any_eq_true.mp hb
        have hsplit := Bool.and_eq_true_iff.mp hpa
        exact ⟨a, ha, beq_iff_eq.mp hsplit.1, hsplit.2⟩
      · intro _
        rfl
    · rw [if_neg hb]
      constructor
      · intro h
        exfalso
        cases hg : schema.get (getFunctionFullname ast.name
            (ast.args.map (fun a => resolve a.type))) with
        | some f =>
          rw [hg] at h
          exact SchemaError.noConfusion (Except.error.inj h)
        | none =>
          rw [hg] at h
          exact Except.noConfusion h
      · rintro ⟨a, ha, hn, hd⟩
        exact absurd (List.any_eq_true.mpr ⟨a, ha, by simp [hn, hd]⟩) hb
  · intro hpoly f hget
    have hb : ¬((ast.args.any (fun a =>
        (TypeRef.name (resolve a.type) == "std::any") &&
          a.default.isSome)) = true) := by
      intro hb
      obtain ⟨a, ha, hpa⟩ := List.any_eq_true.mp hb
      have hsplit := Bool.and_eq_true_iff.mp hpa
      exact hpoly a ha ⟨beq_iff_eq.mp hsplit.1, hsplit.2⟩
    rw [if_neg hb, hget]

/-- C2: a Create compile fails with `PolymorphicDefaultError` exactly
when some parameter's resolved type is the universal polymorphic type
`std::any` and that parameter carries a default-value snippet. The
failure is a pure `Except.error`, so no snapshot is produced or mutated
by a failed compile. -/
theorem create_polymorphic_default_iff {σ ε : Type} (resolve : σ → TypeRef)
    (gen : ε → String) (ast : CreateFunctionAst σ ε) (schema : Schema) :
    (compileCreate resolve gen ast schema =
        .error SchemaError.polymorphicDefaultError) ↔
      ∃ a ∈ ast.args, TypeRef.name (resolve a.type) = "std::any" ∧
        a.default.isSome = true :=
  (compileCreate_cases resolve gen ast schema).1

/-- C2 witness: a concrete polymorphic parameter with a default fails,
and a concrete non-polymorphic one does not fail with this error. -/
theorem create_polymorphic_default_iff_witness :
    compileCreate (σ := TypeRef) (ε := String) (fun t => t) (fun s => s)
      { name := ⟨"std", "f"⟩
        args := [⟨"x", TypeRef.scalar "std::any", TypeModifier.singleton,
          ParameterKind.positional, some "1"⟩]
        returning := TypeRef.scalar "std::int64"
        aggregate := false
        returningTypemod := TypeModifier.singleton
        initialValue := none
        code := none } ⟨[]⟩ =
      .error SchemaError.polymorphicDefaultError :=
  (create_polymorphic_default_iff (fun t => t) (fun s => s)
    { name := ⟨"std", "f"⟩
      args := [⟨"x", TypeRef.scalar "std::any", TypeModifier.singleton,
        ParameterKind.positional, some "1"⟩]
      returning := TypeRef.scalar "std::int64"
      aggregate := false
      returningTypemod := TypeModifier.singleton
      initialValue := none
      code := none } ⟨[]⟩).mpr
    ⟨⟨"x", TypeRef.scalar "std::any", TypeModifier.singleton,
      ParameterKind.positional, some "1"⟩, by decide, rfl, rfl⟩

/-- C1 counterexample: a Create whose overload-qualified name is already
mapped in the snapshot but which also carries a polymorphic parameter
with a default fails with `PolymorphicDefaultError`, not
`DuplicateSignatureError` — the polymorphic check runs first. -/
theorem create_duplicate_signature_cex :
    (Schema.get
        ⟨[(getFunctionFullname ⟨"std", "f"⟩ [TypeRef.scalar "std::any"],
           { name := getFunctionFullname ⟨"std", "f"⟩
               [TypeRef.scalar "std::any"] })]⟩
        (getFunctionFullname ⟨"std", "f"⟩
          [TypeRef.scalar "std::any"])).isSome = true ∧
    compileCreate (σ := TypeRef) (ε := String) (fun t => t) (fun s => s)
      { name := ⟨"std", "f"⟩
        args := [⟨"x", TypeRef.scalar "std::any", TypeModifier.singleton,
          ParameterKind.positional, some "1"⟩]
        returning := TypeRef.scalar "std::int64"
        aggregate := false
        returningTypemod := TypeModifier.singleton
        initialValue := none
        code := none }
      ⟨[(getFunctionFullname ⟨"std", "f"⟩ [TypeRef.scalar "std::any"],
         { name := getFunctionFullname ⟨"std", "f"⟩
             [TypeRef.scalar "std::any"] })]⟩ =
      .error SchemaError.polymorphicDefaultError ∧
    SchemaError.polymorphicDefaultError ≠
      SchemaError.duplicateSignatureError :=
  ⟨rfl, rfl, by decide⟩

/-- C1 amended: a Create compile whose computed overload-qualified name
already maps to an object in the snapshot fails with
`DuplicateSignatureError` provided no polymorphic parameter carries a
default (otherwise the polymorphic check fires first); the failure is a
pure `Except.error`, so the snapshot is unchanged — no inserted-object
snapshot is ever produced by the failed attempt. -/
theorem create_duplicate_signature {σ ε : Type} (resolve : σ → TypeRef)
    (gen : ε → String) (ast : CreateFunctionAst σ ε) (schema : Schema)
    (f : FunctionObj)
    (hget : schema.get (getFunctionFullname ast.name
        (ast.args.map (fun a => resolve a.type))) = some f)
    (hpoly : ∀ a ∈ ast.args, ¬(TypeRef.name (resolve a.type) = "std::any" ∧
        a.default.isSome = true)) :
    compileCreate resolve gen ast schema =
      .error SchemaError.duplicateSignatureError ∧
    ∀ s', compileCreate resolve gen ast schema ≠ .ok s' := by
  have h := (compileCreate_cases resolve gen ast schema).2 hpoly f hget
  refine ⟨h, ?_⟩
  intro s' hs'
  rw [h] at hs'
  exact Except.noConfusion hs'

/-- C1 witness: a concrete duplicate without polymorphic defaults. -/
theorem create_duplicate_signature_witness :
    compileCreate (σ := TypeRef) (ε := String) (fun t => t) (fun s => s)
      { name := ⟨"std", "f"⟩
        args := [⟨"x", TypeRef.scalar "std::int64", TypeModifier.singleton,
          ParameterKind.positional, none⟩]
        returning := TypeRef.scalar "std::int64"
        aggregate := false
        returningTypemod := TypeModifier.singleton
        initialValue := none
        code := none }
      ⟨[(getFunctionFullname ⟨"std", "f"⟩ [TypeRef.scalar "std::int64"],
         { name := getFunctionFullname ⟨"std", "f"⟩
             [TypeRef.scalar "std::int64"] })]⟩ =
      .error SchemaError.duplicateSignatureError :=
  (create_duplicate_signature (fun t => t) (fun s => s)
    { name := ⟨"std", "f"⟩
      args := [⟨"x", TypeRef.scalar "std::int64", TypeModifier.singleton,
        ParameterKind.positional, none⟩]
      returning := TypeRef.scalar "std::int64"
      aggregate := false
      returningTypemod := TypeModifier.singleton
      initialValue := none
      code := none }
    ⟨[(getFunctionFullname ⟨"std", "f"⟩ [TypeRef.scalar "std::int64"],
       { name := getFunctionFullname ⟨"std", "f"⟩
           [TypeRef.scalar "std::int64"] })]⟩
    { name := getFunctionFullname ⟨"std", "f"⟩
        [TypeRef.scalar "std::int64"] }
    (by rfl) (by decide)).1

/-- C5: the target qualified name a Drop statement computes equals the
overload-qualified name a Create compile assigns for the same base name
and the same syntactic parameter list. -/
theorem delete_target_matches_create {σ ε : Type} (resolve : σ → TypeRef)
    (gen : ε → String) (cast : CreateFunctionAst σ ε)
    (dast : DropFunctionAst σ ε)
    (hname : dast.name = cast.name) (hargs : dast.args = cast.args) :
    deleteClassnameFromAst resolve gen dast =
      (cmdTreeFromAst resolve gen cast).map createStructName := by
  rw [cmdTreeFromAst_eq]
  unfold deleteClassnameFromAst
  rw [parametersFromAst_ok resolve gen dast.args true (Or.inl rfl), hname,
    hargs]
  rfl

/-- C5 witness at a concrete one-parameter signature. -/
theorem delete_target_matches_create_witness :
    deleteClassnameFromAst (σ := TypeRef) (ε := String) (fun t => t)
      (fun s => s)
      { name := ⟨"std", "f"⟩
        args := [⟨"x", TypeRef.scalar "std::int64", TypeModifier.singleton,
          ParameterKind.positional, none⟩] } =
    (cmdTreeFromAst (fun t => t) (fun s => s)
      { name := ⟨"std", "f"⟩
        args := [⟨"x", TypeRef.scalar "std::int64", TypeModifier.singleton,
          ParameterKind.positional, none⟩]
        returning := TypeRef.scalar "std::int64"
        aggregate := false
        returningTypemod := TypeModifier.singleton
        initialValue := none
        code := none }).map createStructName :=
  delete_target_matches_create (fun t => t) (fun s => s)
    { name := ⟨"std", "f"⟩
      args := [⟨"x", TypeRef.scalar "std::int64", TypeModifier.singleton,
        ParameterKind.positional, none⟩]
      returning := TypeRef.scalar "std::int64"
      aggregate := false
      returningTypemod := TypeModifier.singleton
      initialValue := none
      code := none }
    { name := ⟨"std", "f"⟩
      args := [⟨"x", TypeRef.scalar "std::int64", TypeModifier.singleton,
        ParameterKind.positional, none⟩] } rfl rfl

/-- C9 counterexample: a Create statement whose body names a delegate
function still gets a `language` property command in its compiled tree
(the source adds `language` whenever a code block is present, before
branching on the delegate name), contradicting "the language property is
recorded only in the non-delegate case". -/
theorem create_code_properties_cex :
    (cmdTreeFromAst (σ := TypeRef) (ε := String) (fun t => t) (fun s => s)
      { name := ⟨"std", "f"⟩
        args := []
        returning := TypeRef.scalar "std::int64"
        aggregate := false
        returningTypemod := TypeModifier.singleton
        initialValue := none
        code := some { language := Language.sql
                       fromName := some "std::g"
                       code := none } }).toOption.map
      (fun c => cmdHasProp c "from_function" && cmdHasProp c "language") =
      some true :=
  rfl

/-- C9 amended: when the Create statement carries an implementation
body, the compiled command tree always records the implementation
language; if the body names a delegate function, the tree records that
name in `from_function` and has no inline-code property; otherwise it
records the inline source in `code` and has no `from_function` property.
`from_function` and `code` are never both present. -/
theorem create_code_properties {σ ε : Type} (resolve : σ → TypeRef)
    (gen : ε → String) (ast : CreateFunctionAst σ ε)
    (c : CreateFunctionCmd) (fc : FuncCode)
    (hok : cmdTreeFromAst resolve gen ast = .ok c)
    (hcode : ast.code = some fc) :
    cmdHasProp c "language" = true ∧
    (∀ fn, fc.fromName = some fn →
      cmdGetProp c "from_function" = some (PropValue.str fn) ∧
        cmdHasProp c "code" = false) ∧
    (fc.fromName = none →
      cmdGetProp c "code" = some (PropValue.optStr fc.code) ∧
        cmdHasProp c "from_function" = false) ∧
    ¬(cmdHasProp c "from_function" = true ∧
        cmdHasProp c "code" = true) := by
  rw [cmdTreeFromAst_eq] at hok
  cases hok
  cases hiv : ast.initialValue with
  | none =>
    cases hfn : fc.fromName with
    | none =>
      refine ⟨?_, ?_, ?_, ?_⟩
      · simp [cmdHasProp, hcode, hiv, hfn]
      · intro fn hfn'
        exact Option.noConfusion hfn'
      · intro _
        constructor
        · simp [cmdGetProp, hcode, hiv, hfn, List.find?]
        · simp [cmdHasProp, hcode, hiv, hfn]
      · rintro ⟨h1, _⟩
        rw [show cmdHasProp _ "from_function" = false by
          simp [cmdHasProp, hcode, hiv, hfn]] at h1
        exact Bool.noConfusion h1
    | some fn =>
      refine ⟨?_, ?_, ?_, ?_⟩
      · simp [cmdHasProp, hcode, hiv, hfn]
      · intro fn' hfn'
        cases hfn'
        constructor
        · simp [cmdGetProp, hcode, hiv, hfn, List.find?]
        · simp [cmdHasProp, hcode, hiv, hfn]
      · intro hfn'
        exact Option.noConfusion hfn'
      · rintro ⟨_, h2⟩
        rw [show cmdHasProp _ "code" = false by
          simp [cmdHasProp, hcode, hiv, hfn]] at h2
        exact Bool.noConfusion h2
  | some iv =>
    cases hfn : fc.fromName with
    | none =>
      refine ⟨?_, ?_, ?_, ?_⟩
      · simp [cmdHasProp, hcode, hiv, hfn]
      · intro fn hfn'
        exact Option.noConfusion hfn'
      · intro _
        constructor
        · simp [cmdGetProp, hcode, hiv, hfn, List.find?]
        · simp [cmdHasProp, hcode, hiv, hfn]
      · rintro ⟨h1, _⟩
        rw [show cmdHasProp _ "from_function" = false by
          simp [cmdHasProp, hcode, hiv, hfn]] at h1
        exact Bool.noConfusion h1
    | some fn =>
      refine ⟨?_, ?_, ?_, ?_⟩
      · simp [cmdHasProp, hcode, hiv, hfn]
      · intro fn' hfn'
        cases hfn'
        constructor
        · simp [cmdGetProp, hcode, hiv, hfn, List.find?]
        · simp [cmdHasProp, hcode, hiv, hfn]
      · intro hfn'
        exact Option.noConfusion hfn'
      · rintro ⟨_, h2⟩
        rw [show cmdHasProp _ "code" = false by
          simp [cmdHasProp, hcode, hiv, hfn]] at h2
        exact Bool.noConfusion h2

/-- C9 witness: a concrete non-delegate body records `language` and
inline `code` and no `from_function`. -/
theorem create_code_properties_witness :
    cmdHasProp
      { name := (⟨"std", "f"⟩ : Name)
        props :=
          [⟨"paramnames", .strList []⟩, ⟨"paramtypes", .typeList []⟩,
           ⟨"paramtypemods", .typemodList []⟩,
           ⟨"paramkinds", .kindList []⟩,
           ⟨"paramdefaults", .optStrList []⟩,
           ⟨"return_type", .typeref (TypeRef.scalar "std::int64")⟩,
           ⟨"aggregate", .bool false⟩,
           ⟨"return_typemod", .typemod TypeModifier.singleton⟩,
           ⟨"language", .lang Language.sql⟩,
           ⟨"code", .optStr (some "SELECT 1")⟩] } "language" = true ∧
    cmdGetProp
      { name := (⟨"std", "f"⟩ : Name)
        props :=
          [⟨"paramnames", .strList []⟩, ⟨"paramtypes", .typeList []⟩,
           ⟨"paramtypemods", .typemodList []⟩,
           ⟨"paramkinds", .kindList []⟩,
           ⟨"paramdefaults", .optStrList []⟩,
           ⟨"return_type", .typeref (TypeRef.scalar "std::int64")⟩,
           ⟨"aggregate", .bool false⟩,
           ⟨"return_typemod", .typemod TypeModifier.singleton⟩,
           ⟨"language", .lang Language.sql⟩,
           ⟨"code", .optStr (some "SELECT 1")⟩] } "code" =
      some (PropValue.optStr (some "SELECT 1")) :=
  have h := create_code_properties (σ := TypeRef) (ε := String)
    (fun t => t) (fun s => s)
    { name := ⟨"std", "f"⟩
      args := []
      returning := TypeRef.scalar "std::int64"
      aggregate := false
      returningTypemod := TypeModifier.singleton
      initialValue := none
      code := some { language := Language.sql
                     fromName := none
                     code := some "SELECT 1" } }
    { name := ⟨"std", "f"⟩
      props :=
        [⟨"paramnames", .strList []⟩, ⟨"paramtypes", .typeList []⟩,
         ⟨"paramtypemods", .typemodList []⟩,
         ⟨"paramkinds", .kindList []⟩,
         ⟨"paramdefaults", .optStrList []⟩,
         ⟨"return_type", .typeref (TypeRef.scalar "std::int64")⟩,
         ⟨"aggregate", .bool false⟩,
         ⟨"return_typemod", .typemod TypeModifier.singleton⟩,
         ⟨"language", .lang Language.sql⟩,
         ⟨"code", .optStr (some "SELECT 1")⟩] }
    { language := Language.sql, fromName := none, code := some "SELECT 1" }
    (by rfl) rfl
  ⟨h.1, (h.2.2.1 rfl).1⟩

end EdbFunctions
